import Mathlib

/-!
Verification of the `monster` production-grammar engine.

The Go sources under verification are:
* `monster.go` (parser callbacks `ruleNode`, `rulesNode`, `formNode`,
  `refNode`, `identNode`, `termNode`, the `builtins`/`literals` registries,
  and `BuildContext`),
* `builtin/bag.go` (`Bag`, `readBag`),
* `builtin/inc.go` (`Inc`), and `builtin/let.go` (`Let`).

The `common` package (`Scope`, `Form`, `EvalForms`) is not part of the
sources; wherever a definition comes from it, the doc comment starts with
`Modelled from the spec:` and follows the specification's words.

Go's dynamic `interface{}` values are embedded as the inductive `Value`;
Go `nil` is `Value.vNil`.  A fatal `panic` is `Except.error`.  Go `float64`
is modelled as the exact rational type `Rat` (floating-point rounding is
not modelled), and `int64` as `Int`, with Go's wrapping signed arithmetic
made explicit by `wrap64` at the one place the sources perform int64
arithmetic (`inc.go`'s `value.(int64)+by`).  Evaluation closures become a
fuel-indexed interpreter `evalB` over the `Body` syntax, so that unbounded
grammar recursion is cut off by fuel instead of diverging.
-/

namespace Monster

/-- The dynamic value domain carried through evaluation (Go `interface{}`):
`int64`, `float64`, `bool`, `string`, list of values, and the distinguished
`nil` (Go's untyped `nil`). -/
inductive Value where
  | vNil
  | vInt (n : Int)
  | vFloat (q : Rat)
  | vBool (b : Bool)
  | vStr (s : String)
  | vList (vs : List Value)

/-- The Go test `val == nil`. -/
def Value.isNil : Value → Bool
  | .vNil => true
  | _ => false

/-- Rendering of an `int64` by Go's `fmt.Sprintf("%v", ·)`: decimal digits,
with a leading minus sign for negatives. -/
def fmtInt (n : Int) : String := toString n

/-- Rendering of a `float64` by `%v`.  Go prints the shortest decimal
representation; that formatting is abstracted here by the rational's
`toString`.  No claim depends on the exact digits of a float rendering. -/
def fmtRat (q : Rat) : String := toString q

mutual

/-- Go's `fmt.Sprintf("%v", val)` over the value domain (default
formatting used by rule concatenation). -/
def fmtValue : Value → String
  | .vNil => "<nil>"
  | .vInt n => fmtInt n
  | .vFloat q => fmtRat q
  | .vBool b => cond b "true" "false"
  | .vStr s => s
  | .vList vs => "[" ++ fmtValueList vs ++ "]"

/-- Elements of a Go slice printed by `%v`: space separated. -/
def fmtValueList : List Value → String
  | [] => ""
  | [v] => fmtValue v
  | v :: vs => fmtValue v ++ " " ++ fmtValueList vs

end

mutual

/-- A `common.Form`: name tag, weight, restraint, and the behaviour the Go
code stores as an evaluator closure.  The closure bodies appearing in the
source are defunctionalized into the `Body` syntax below; the fuel-indexed
interpreter `evalB` gives each `Body` exactly the behaviour of the closure
it came from. -/
inductive Form where
  | mk (name : String) (weight restrain : Rat) (body : Body)

/-- The evaluator closures occurring in the source, one constructor per
closure shape:
* `const v` — the closures that return a fixed value:  `##literaltok`,
  `##formtok`, `##string`, `##term`;
* `ref tok` — the `##ref` closure built by `refNode`;
* `identN n` — the `##ident` closure built by `identNode`;
* `ntApp n` — the `#<name>` nonterminal-application closure built by
  `formNode`'s non-builtin branch;
* `builtinApp n args` — `formNode`'s builtin branch: evaluate `args` in
  order, then invoke the registered builtin `n`;
* `rule rats` — the `##rule` closure built by `ruleNode`. -/
inductive Body where
  | const (v : Value)
  | ref (tok : String)
  | identN (n : String)
  | ntApp (n : String)
  | builtinApp (n : String) (args : List Form)
  | rule (rats : List Form)

end

def Form.name : Form → String
  | .mk n _ _ _ => n

def Form.weight : Form → Rat
  | .mk _ w _ _ => w

def Form.restrain : Form → Rat
  | .mk _ _ r _ => r

def Form.body : Form → Body
  | .mk _ _ _ b => b

instance : Inhabited Form := ⟨.mk "" 0 0 (.const .vNil)⟩

/-- Modelled from the spec: `set_weight(w, r)` of §4.1 — overrides the
default weight and restraint (the `common` package implementing `Form` is
not among the sources). -/
def Form.setWeight : Form → Rat → Rat → Form
  | .mk n _ _ b, w, r => .mk n w r b

/-- Modelled from the spec: `set_default_weight(w)` of §4.1 sets the weight
only when no explicit weight has been installed.  A new form's weight is 0
(§4.1), so "no explicit weight has been set" is modelled as the weight
still being 0. -/
def Form.setDefaultWeight : Form → Rat → Form
  | f, w => if f.weight = 0 then .mk f.name w f.restrain f.body else f

/-- Modelled from the spec: a scope (§3) — a two-layer name→value
environment (local preferred over global) together with the registries the
root scope carries: `_nonterminals`, the running weights `_weights`, the
seeded RNG `_random` (modelled as a stream of rationals in `[0,1)` that is
consumed draw by draw), `_bagdir` and `_prodfile`, and the bag file system
(path → parsed CSV records), standing in for the OS file system together
with the process-wide memoized bag cache. -/
structure Scope where
  locals : List (String × Value)
  globals : List (String × Value)
  nonterminals : List (String × List Form)
  weights : List (String × List Rat)
  rand : List Rat
  bagdir : Option String
  prodfile : Option String
  fs : List (String × List (List String))

/-- Go's `make(common.Scope)`: a fresh empty scope. -/
def emptyScope : Scope := ⟨[], [], [], [], [], none, none, []⟩

/-- Modelled from the spec: `Get(name)` resolves local first, then global
(§3); the returned flag records the layer the name was found in (`false`
local, `true` global), mirroring the Go `Get`'s second result. -/
def Scope.get (sc : Scope) (n : String) : Option (Value × Bool) :=
  match sc.locals.lookup n with
  | some v => some (v, false)
  | none =>
    match sc.globals.lookup n with
    | some v => some (v, true)
    | none => none

/-- Modelled from the spec: `Set(name, value, global)` writes to `_globals`
when `global` is true, else to the current local layer (§3).  Writing is
modelled by prepending, and `lookup` takes the most recent binding. -/
def Scope.set (sc : Scope) (n : String) (v : Value) (global : Bool) : Scope :=
  if global then { sc with globals := (n, v) :: sc.globals }
  else { sc with locals := (n, v) :: sc.locals }

/-- Modelled from the spec: `GetString` fetches a scope entry and asserts
it is a string; `_bagdir` and `_prodfile` are the build-time path entries
(§3, §4.5). -/
def Scope.getString (sc : Scope) (k : String) : Option String :=
  if k = "_bagdir" then sc.bagdir
  else if k = "_prodfile" then sc.prodfile
  else
    match sc.get k with
    | some (.vStr s, _) => some s
    | _ => none

/-- `GetNonTerminal`: look a name up in the `_nonterminals` registry. -/
def Scope.getNonTerminal (sc : Scope) (n : String) : Option (List Form) :=
  sc.nonterminals.lookup n

/-- Install the running-weight vector for a nonterminal (`_weights`). -/
def Scope.setWeights (sc : Scope) (n : String) (w : List Rat) : Scope :=
  { sc with weights := (n, w) :: sc.weights }

/-- One uniform draw in `[0,1)` from the modelled RNG stream. -/
def Scope.draw (sc : Scope) : Rat × Scope :=
  (sc.rand.headD 0, { sc with rand := sc.rand.tail })

/-- Go's `rand.Intn(n)`: a uniform integer in `[0,n)`, derived from one
stream draw; the `% n` keeps the result in range even for a degenerate
stream value. -/
def Scope.intn (sc : Scope) (n : Nat) : Nat × Scope :=
  let p := sc.draw
  (if n = 0 then 0 else (p.1 * n).floor.toNat % n, p.2)

/-- The result of evaluating a form: either a fatal panic (with its
message) or a value together with the mutated scope. -/
abbrev Res := Except String (Value × Scope)

/-!
## The builtin library

Each builtin has the Go calling convention
`func(scope common.Scope, args ...interface{}) interface{}`; arguments have
already been evaluated by the form-application wrapper.  `Let`, `Inc` and
`Bag` are translated from the sources (`builtin/let.go`, `builtin/inc.go`,
`builtin/bag.go`); the remaining builtins' files are not among the sources
and are modelled from the spec (§4.4).
-/

/-- `builtin.Let` (from the source): bind the `(name, value)` pairs of the
argument list into local scope, in order; return the empty string.  A
non-string name is a type-assertion panic, an odd trailing argument an
index-out-of-range panic. -/
def Let : Scope → List Value → Res
  | sc, [] => .ok (.vStr "", sc)
  | sc, .vStr n :: v :: rest => Let (sc.set n v false) rest
  | _, _ => .error "let: invalid arguments"

/-- Modelled from the spec: `letr`'s semantics are left open (§9, the
source file is not among the sources and builtin arguments arrive already
evaluated); modelled like `let` over the evaluated arguments. -/
def Letr : Scope → List Value → Res
  | sc, [] => .ok (.vStr "", sc)
  | sc, .vStr n :: v :: rest => Letr (sc.set n v false) rest
  | _, _ => .error "letr: invalid arguments"

/-- Modelled from the spec: `global(name, value, …)` — like `let` but
writes to the global layer (§4.4). -/
def Global : Scope → List Value → Res
  | sc, [] => .ok (.vStr "", sc)
  | sc, .vStr n :: v :: rest => Global (sc.set n v true) rest
  | _, _ => .error "global: invalid arguments"

/-- Modelled from the spec: `weigh(weight, restraint)` returns the pair
`[weight, restraint]` (§4.4); meaningful only as the first form of a rule
alternative at parse time. -/
def Weigh (sc : Scope) (args : List Value) : Res :=
  .ok (.vList args, sc)

/-- Go's `filepath.IsAbs`, simplified to Unix: absolute iff the path
starts with `/`. -/
def isAbs (p : String) : Bool :=
  match p.data with
  | '/' :: _ => true
  | _ => false

/-- Go's `filepath.Join` of two components, without the `Clean`
post-pass. -/
def joinPath (a b : String) : String :=
  if a = "" then b else a ++ "/" ++ b

/-- Go's `filepath.Dir`, simplified: strip the final path component. -/
def dirPath (p : String) : String :=
  match (p.splitOn "/").dropLast with
  | [] => "."
  | ps => String.intercalate "/" ps

/-- The path-resolution prefix of `builtin.Bag` (source lines 21–29): an
absolute filename is used as-is; otherwise it is joined to `_bagdir` when
that is set, else to the directory of `_prodfile`.  (The subsequent
`filepath.Abs` call, which resolves against the process working directory,
is outside the model.) -/
def bagResolve (sc : Scope) (filename : String) : String :=
  if isAbs filename then filename
  else
    match sc.getString "_bagdir" with
    | some bagdir => joinPath bagdir filename
    | none =>
      match sc.getString "_prodfile" with
      | some prodfile => joinPath (dirPath prodfile) filename
      | none => filename

/-- `builtin.Bag` (from the source): resolve the filename, read the CSV
records of the file (memoized; modelled by the scope's `fs` map, a missing
file being the `readBag` panic), and return the first field of a uniformly
random record — the empty string when the file has no records or the
picked record has no fields. -/
def Bag (sc : Scope) (args : List Value) : Res :=
  match args with
  | .vStr filename :: _ =>
    let fn := bagResolve sc filename
    match sc.fs.lookup fn with
    | none => .error ("cannot open file " ++ fn)
    | some records =>
      if records.length > 0 then
        let p := sc.intn records.length
        let record := records.getD p.1 []
        if record.length > 0 then .ok (.vStr (record.headD ""), p.2)
        else .ok (.vStr "", p.2)
      else .ok (.vStr "", sc)
  | _ => .error "bag: filename not a string"

/-- Modelled from the spec: `range(lo, hi)` — a uniform random integer in
`[lo, hi)` (§4.4). -/
def Range (sc : Scope) (args : List Value) : Res :=
  match args with
  | [.vInt lo, .vInt hi] =>
    let p := sc.intn (hi - lo).toNat
    .ok (.vInt (lo + p.1), p.2)
  | _ => .error "range: invalid arguments"

/-- Modelled from the spec: `rangef(lo, hi)` — a uniform random float in
`[lo, hi)` (§4.4). -/
def Rangef (sc : Scope) (args : List Value) : Res :=
  match args with
  | [.vFloat lo, .vFloat hi] =>
    let p := sc.draw
    .ok (.vFloat (lo + p.1 * (hi - lo)), p.2)
  | _ => .error "rangef: invalid arguments"

/-- Modelled from the spec: `ranget(lo, hi)` — a float range with the
endpoints truncated to integers, returning a uniform integer (§4.4). -/
def Ranget (sc : Scope) (args : List Value) : Res :=
  match args with
  | [.vFloat lo, .vFloat hi] =>
    let p := sc.intn (hi.floor - lo.floor).toNat
    .ok (.vInt (lo.floor + p.1), p.2)
  | _ => .error "ranget: invalid arguments"

/-- Modelled from the spec: `choice(v₀, v₁, …)` — one argument chosen
uniformly; with zero arguments the Go `rand.Intn(0)` panics (§8). -/
def Choice (sc : Scope) (args : List Value) : Res :=
  if args.length = 0 then .error "choice: no arguments"
  else
    let p := sc.intn args.length
    .ok (args.getD p.1 .vNil, p.2)

/-- Modelled from the spec: `uuid()` — a freshly generated random UUID
string (§4.4); the hex layout of a UUID is abstracted, only its randomness
(one RNG draw) is modelled. -/
def Uuid (sc : Scope) (_args : List Value) : Res :=
  let p := sc.intn 4294967296
  .ok (.vStr ("uuid-" ++ toString p.1), p.2)

/-- Go's two's-complement `int64`: reduce an unbounded integer into
`[-2^63, 2^63)`, as Go's wrapping signed addition does (the literals are
`2^63` and `2^64`). -/
def wrap64 (n : Int) : Int :=
  (n + 9223372036854775808) % 18446744073709551616 - 9223372036854775808

/-- The core of `builtin.Inc`/`Dec` (from the source): look `n` up (local
preferred, then global); when bound, add `step` with Go's wrapping int64
addition in the layer the name was found in (a non-`int64` bound value is
a type-assertion panic); always return the empty string. -/
def incCore (sc : Scope) (n : String) (step : Int) : Res :=
  match sc.get n with
  | some (.vInt v, g) => .ok (.vStr "", sc.set n (.vInt (wrap64 (v + step))) g)
  | some (_, _) => .error "inc: bound value is not an int64"
  | none => .ok (.vStr "", sc)

/-- `builtin.Inc` (from the source): increment variable `args[0]` by
`args[1]` (default 1). -/
def Inc (sc : Scope) (args : List Value) : Res :=
  match args with
  | .vStr n :: rest =>
    match rest with
    | [] => incCore sc n 1
    | .vInt step :: _ => incCore sc n step
    | _ => .error "inc: quantum is not an int64"
  | _ => .error "inc: name is not a string"

/-- Modelled from the spec: `dec(name [, by])` — the `∓by` counterpart of
`inc` (§4.4; `builtin/dec.go` is not among the sources). -/
def Dec (sc : Scope) (args : List Value) : Res :=
  match args with
  | .vStr n :: rest =>
    match rest with
    | [] => incCore sc n (-1)
    | .vInt step :: _ => incCore sc n (-step)
    | _ => .error "dec: quantum is not an int64"
  | _ => .error "dec: name is not a string"

/-- Modelled from the spec: `len(v)` — string character count or list
element count, fatal otherwise (§4.4). -/
def Len (sc : Scope) (args : List Value) : Res :=
  match args with
  | [.vStr s] => .ok (.vInt s.length, sc)
  | [.vList l] => .ok (.vInt l.length, sc)
  | _ => .error "len: invalid argument"

/-- Modelled from the spec: the directive scan of `sprintf` — every `%`
directive consumes one argument and is rendered with the default `%v`
rendering (verb-specific formatting is abstracted); `%%` is a literal
percent sign. -/
def sprintfAux : List Char → List Value → String
  | [], _ => ""
  | '%' :: '%' :: cs, args => "%" ++ sprintfAux cs args
  | '%' :: _ :: cs, a :: rest => fmtValue a ++ sprintfAux cs rest
  | '%' :: c :: cs, [] => "%!" ++ String.mk [c] ++ "(MISSING)" ++ sprintfAux cs []
  | c :: cs, args => String.mk [c] ++ sprintfAux cs args

/-- Modelled from the spec: `sprintf(fmt, args…)` — C-style formatting
over the argument list (§4.4). -/
def Sprintf (sc : Scope) (args : List Value) : Res :=
  match args with
  | .vStr f :: rest => .ok (.vStr (sprintfAux f.data rest), sc)
  | _ => .error "sprintf: format is not a string"

/-- The `builtins` registry populated by `initBuiltins` in the source:
builtin name → evaluator. -/
def builtins : List (String × (Scope → List Value → Res)) :=
  [("let", Let), ("letr", Letr), ("global", Global), ("weigh", Weigh),
   ("bag", Bag), ("range", Range), ("rangef", Rangef), ("ranget", Ranget),
   ("choice", Choice), ("uuid", Uuid), ("inc", Inc), ("dec", Dec),
   ("len", Len), ("sprintf", Sprintf)]

/-- The `literals` registry populated by `initLiterals` in the source:
`DQ` is a double quote, `NL` a newline. -/
def literals : List (String × String) := [("DQ", "\""), ("NL", "\n")]

/-!
## The evaluator

`evalB` interprets a `Body` against a scope.  One unit of fuel is spent at
every form boundary (Go uses the machine stack, which the caller may
exhaust through self-referential nonterminals; the spec allows a recursion
depth limit, §5); running out of fuel is reported as a fatal error.
-/

/-- The `##ref` closure built by `refNode` (from the source): a `$`-token
resolves the name with the sigil stripped, a `#`-token resolves the name
including the sigil; an unbound name, or a token with neither sigil, is a
fatal panic.  The closure never mutates the scope. -/
def refEval (tok : String) (sc : Scope) : Res :=
  match tok.data with
  | '$' :: rest =>
    match sc.get (String.mk rest) with
    | some (v, _) => .ok (v, sc)
    | none => .error ("unknown reference " ++ tok)
  | '#' :: _ =>
    match sc.get tok with
    | some (v, _) => .ok (v, sc)
    | none => .error ("unknown argument " ++ tok)
  | _ => .error ("unknown form " ++ tok ++ " as part of rule")

/-- Modelled from the spec: step 5 of the selection algorithm (§4.3) —
walk the eligible indices in order, subtracting each one's current weight
from `u`; the first index whose subtraction makes `u ≤ 0` is chosen (the
final index catches a degenerate draw). -/
def pickIndex (u : Rat) (cur : Nat → Rat) : List Nat → Nat
  | [] => 0
  | [i] => i
  | i :: j :: rest => if u - cur i ≤ 0 then i else pickIndex (u - cur i) cur (j :: rest)

/-- Modelled from the spec: `EvalForms(name, scope, rules)` (§4.3), the
weighted rule selection of the `common` package (not among the sources).
Eligibility, exhaustion reset, the uniform draw over the total current
weight, the in-order walk, and the restraint update follow the
specification's steps 1–7; the chosen rule's evaluation is delegated to
`ev`. -/
def EvalForms (ev : Form → Scope → Res) (name : String) (sc : Scope)
    (rules : List Form) : Res :=
  let R := rules.length
  let W0 := (sc.weights.lookup name).getD (List.replicate R 0)
  let wt := fun i => (rules.getD i default).weight
  let rs := fun i => (rules.getD i default).restrain
  let cur0 := fun i => W0.getD i 0 + wt i
  let remaining0 := (List.range R).filter (fun i => decide (0 ≤ cur0 i) && decide (0 < wt i))
  let W := if remaining0.isEmpty then List.replicate R 0 else W0
  let remaining :=
    if remaining0.isEmpty then (List.range R).filter (fun i => decide (0 < wt i))
    else remaining0
  let cur := fun i => W.getD i 0 + wt i
  if remaining.isEmpty then
    .error ("no positive-weight rule for nonterminal " ++ name)
  else
    let total := (remaining.map cur).sum
    let p := sc.draw
    let u := p.1 * total
    let k := pickIndex u cur remaining
    let sc1 := p.2.setWeights name (W.set k (W.getD k 0 - rs k))
    match rules.getD k default with
    | rule => ev rule sc1

/-- The body of `formNode`'s non-builtin closure and of `identNode`'s
closure (from the source): look the nonterminal up, evaluate it through
`EvalForms`, cache the result under the plain name in local scope and
return it; fail fatally (with the branch's message) when the nonterminal
does not exist. -/
def ntEval (ev : Form → Scope → Res) (n : String) (err : String) (sc : Scope) : Res :=
  match sc.getNonTerminal n with
  | some forms =>
    match EvalForms ev n sc forms with
    | .error e => .error e
    | .ok (v, sc') => .ok (v, sc'.set n v false)
  | none => .error err

/-- The argument loop of `formNode`'s builtin closure (from the source):
evaluate the argument forms left to right against the (threaded) scope,
collecting their values. -/
def evalArgsWith (ev : Form → Scope → Res) :
    List Form → Scope → Except String (List Value × Scope)
  | [], sc => .ok ([], sc)
  | f :: fs, sc =>
    match ev f sc with
    | .error e => .error e
    | .ok (v, sc') =>
      match evalArgsWith ev fs sc' with
      | .error e => .error e
      | .ok (vs, sc'') => .ok (v :: vs, sc'')

/-- The loop of the `##rule` closure built by `ruleNode` (from the
source): evaluate each sub-form left to right; a `nil` result returns
`nil` at once; otherwise bind the result to `#i` in local scope and append
its default-formatted rendering to the accumulator; return the
accumulated string after the last sub-form. -/
def ruleAuxWith (ev : Form → Scope → Res) :
    List Form → Nat → String → Scope → Res
  | [], _, str, sc => .ok (.vStr str, sc)
  | f :: fs, i, str, sc =>
    match ev f sc with
    | .error e => .error e
    | .ok (v, sc') =>
      if v.isNil then .ok (.vNil, sc')
      else
        ruleAuxWith ev fs (i + 1) (str ++ fmtValue v)
          (sc'.set ("#" ++ toString i) v false)

/-- One step of the interpreter: dispatch a `Body` to the behaviour of the
closure it defunctionalizes, evaluating sub-forms through `ev`. -/
def evalStep (ev : Form → Scope → Res) (body : Body) (sc : Scope) : Res :=
  match body with
  | .const v => .ok (v, sc)
  | .ref tok => refEval tok sc
  | .identN n => ntEval ev n ("unknown nonterminal " ++ n) sc
  | .ntApp n => ntEval ev n ("unknown form name " ++ n) sc
  | .builtinApp n args =>
    match evalArgsWith ev args sc with
    | .error e => .error e
    | .ok (vs, sc') =>
      match builtins.lookup n with
      | some f => f sc' vs
      | none => .error ("unknown builtin " ++ n)
  | .rule rats => ruleAuxWith ev rats 0 "" sc

/-- The fuel-indexed interpreter: each nested form evaluation costs one
unit of fuel. -/
def evalB : Nat → Body → Scope → Res
  | 0, _, _ => .error "recursion limit exceeded"
  | fuel + 1, body, sc => evalStep (fun f s => evalB fuel f.body s) body sc

/-- `form.Eval(scope)`: evaluate a form — run its closure's body. -/
def evalForm (fuel : Nat) (f : Form) (sc : Scope) : Res :=
  evalB fuel f.body sc

/-!
## The parser callbacks

Each callback mirrors the node function of the same name in the source.
Terminal tokens are given as their matched text.
-/

/-- `refNode` (from the source): wrap a `$`/`#` token as a `##ref` form. -/
def refNode (v : String) : Form := .mk "##ref" 0 0 (.ref v)

/-- `identNode` (from the source): wrap a lowercase identifier as a
`##ident` form. -/
def identNode (v : String) : Form := .mk "##ident" 0 0 (.identN v)

/-- `termNode` (from the source): look the uppercase identifier up in
`literals` at parse time — an unknown terminal yields Go's zero-value
string `""` — and wrap the result as a constant `##term` form. -/
def termNode (v : String) : Form :=
  .mk "##term" 0 0 (.const (.vStr ((literals.lookup v).getD "")))

/-- The `##string` form built by `ruletokNode`/`formtokNode` for a quoted
string (from the source): the unquoted content as a constant. -/
def stringNode (content : String) : Form := .mk "##string" 0 0 (.const (.vStr content))

/-- `formNode` (from the source): a form-application `(name arg*)`.  A
registered builtin name wins: the produced form (tagged `name`) evaluates
the arguments in order and invokes the builtin.  Otherwise the produced
form (tagged `#name`) applies the nonterminal `name`, ignoring the
arguments. -/
def formNode (name : String) (args : List Form) : Form :=
  if (builtins.lookup name).isSome then .mk name 0 0 (.builtinApp name args)
  else .mk ("#" ++ name) 0 0 (.ntApp name)

/-- The `##rule` form composed by `ruleNode` over the alternative's
remaining tokens. -/
def mkRuleForm (rats : List Form) : Form := .mk "##rule" 0 0 (.rule rats)

/-- `ruleNode` (from the source): compile one rule alternative.  Only when
the alternative has more than one token and the first is a form named
`weigh` is that form evaluated against a fresh empty scope at parse time —
its result must be a list whose first two elements are floats, otherwise
the type assertion panics — and stripped from the body; the composed
`##rule` form gets `SetWeight(weight, restrain)`, the weights defaulting
to 0. -/
def ruleNode (fuel : Nat) (ns : List Form) : Except String Form :=
  match ns with
  | n0 :: r0 :: rest =>
    if n0.name = "weigh" then
      match evalForm fuel n0 emptyScope with
      | .ok (.vList (.vFloat w :: .vFloat r :: _), _) =>
        .ok ((mkRuleForm (r0 :: rest)).setWeight w r)
      | .ok _ => .error "weigh: result is not a list of two floats"
      | .error e => .error e
    else .ok ((mkRuleForm (n0 :: r0 :: rest)).setWeight 0 0)
  | other => .ok ((mkRuleForm other).setWeight 0 0)

/-- `rulesNode` (from the source): over the compiled alternatives of one
nonterminal, set the default weight `1/R` where `R` is the number of
alternatives. -/
def rulesNode (ns : List Form) : List Form :=
  let weight : Rat := 1 / (ns.length : Rat)
  ns.map (fun rule => rule.setDefaultWeight weight)

/-!
## Claims
-/

/-- C9: every uppercase terminal identifier other than the two predefined
literals `DQ` and `NL` compiles, through `termNode`, to a `##term` form
that evaluates to the empty string in every scope, without an error. -/
theorem c9_unknown_terminal_empty (v : String) (sc : Scope) (fuel : Nat)
    (hdq : v ≠ "DQ") (hnl : v ≠ "NL") :
    evalForm (fuel + 1) (termNode v) sc = .ok (.vStr "", sc) := by
  have h1 : (v == "DQ") = false := beq_eq_false_iff_ne.mpr hdq
  have h2 : (v == "NL") = false := beq_eq_false_iff_ne.mpr hnl
  simp [termNode, evalForm, evalB, evalStep, Form.body, literals, List.lookup, h1, h2]

/-- Witness for C9 at the concrete terminal `AB`. -/
theorem c9_unknown_terminal_empty_witness :
    evalForm 1 (termNode "AB") emptyScope = .ok (.vStr "", emptyScope) :=
  c9_unknown_terminal_empty "AB" emptyScope 0 (by decide) (by decide)

/-- C5: a `$`-reference evaluates to the scope lookup of the name with the
sigil stripped, a `#`-reference to the lookup of the name including the
sigil; in either case an unbound name (in local and global scope both) is
a fatal evaluation error. -/
theorem c5_reference_resolution (name : String) (sc : Scope) (fuel : Nat) :
    ((∀ v g, sc.get name = some (v, g) →
        evalForm (fuel + 1) (refNode ("$" ++ name)) sc = .ok (v, sc)) ∧
      (sc.get name = none →
        ∃ e, evalForm (fuel + 1) (refNode ("$" ++ name)) sc = .error e)) ∧
    ((∀ v g, sc.get ("#" ++ name) = some (v, g) →
        evalForm (fuel + 1) (refNode ("#" ++ name)) sc = .ok (v, sc)) ∧
      (sc.get ("#" ++ name) = none →
        ∃ e, evalForm (fuel + 1) (refNode ("#" ++ name)) sc = .error e)) := by
  have hdata : ∀ c : Char, (String.mk [c] ++ name).data = c :: name.data := by
    intro c
    rw [String.data_append]
    rfl
  have hmk : String.mk name.data = name := rfl
  constructor
  · constructor
    · intro v g h
      simp [evalForm, refNode, evalB, evalStep, Form.body, refEval, hdata '$', hmk, h]
    · intro h
      exact ⟨"unknown reference " ++ ("$" ++ name), by
        simp [evalForm, refNode, evalB, evalStep, Form.body, refEval, hdata '$', hmk, h]⟩
  · constructor
    · intro v g h
      simp [evalForm, refNode, evalB, evalStep, Form.body, refEval, hdata '#', h]
    · intro h
      exact ⟨"unknown argument " ++ ("#" ++ name), by
        simp [evalForm, refNode, evalB, evalStep, Form.body, refEval, hdata '#', h]⟩

/-- Witness for C5: with `x ↦ 7` bound locally, `$x` resolves to 7 and
`#x` (unbound) fails; with `#0 ↦ 5` bound, `#0`-style references resolve
through the sigil-included name. -/
theorem c5_reference_resolution_witness :
    (evalForm 1 (refNode "$x") (emptyScope.set "x" (.vInt 7) false) =
      .ok (.vInt 7, emptyScope.set "x" (.vInt 7) false)) ∧
    (∃ e, evalForm 1 (refNode "#x") (emptyScope.set "x" (.vInt 7) false) = .error e) :=
  ⟨((c5_reference_resolution "x" (emptyScope.set "x" (.vInt 7) false) 0).1.1
      (.vInt 7) false rfl),
    ((c5_reference_resolution "x" (emptyScope.set "x" (.vInt 7) false) 0).2.2 rfl)⟩

/-- C6: `inc(name [, by])` with the variable bound (local layer preferred
over global) replaces its value by the old value plus the increment
(default 1) — the sum taken with Go's wrapping int64 addition — in the
layer it was found in and returns the empty string; with the variable
absent it changes nothing and still returns the empty string. -/
theorem c6_inc_update (sc : Scope) (name : String) :
    (∀ v g step rest, sc.get name = some (.vInt v, g) →
        Inc sc (.vStr name :: .vInt step :: rest) =
          .ok (.vStr "", sc.set name (.vInt (wrap64 (v + step))) g)) ∧
    (∀ v g, sc.get name = some (.vInt v, g) →
        Inc sc [.vStr name] = .ok (.vStr "", sc.set name (.vInt (wrap64 (v + 1))) g)) ∧
    (sc.get name = none →
        (∀ step rest, Inc sc (.vStr name :: .vInt step :: rest) = .ok (.vStr "", sc)) ∧
        Inc sc [.vStr name] = .ok (.vStr "", sc)) ∧
    (∀ v, sc.locals.lookup name = some v → sc.get name = some (v, false)) := by
  refine ⟨?_, ?_, ?_, ?_⟩
  · intro v g step rest h
    simp [Inc, incCore, h]
  · intro v g h
    simp [Inc, incCore, h]
  · intro h
    exact ⟨fun step rest => by simp [Inc, incCore, h], by simp [Inc, incCore, h]⟩
  · intro v h
    simp [Scope.get, h]

/-- Witness for C6: incrementing a locally bound `n = 3` by the default 1
and by 10, incrementing an unbound name, and incrementing `n = 2^63 - 1`
by 1, which wraps to `-2^63` as the program does. -/
theorem c6_inc_update_witness :
    (Inc (emptyScope.set "n" (.vInt 3) false) [.vStr "n"] =
      .ok (.vStr "", (emptyScope.set "n" (.vInt 3) false).set "n" (.vInt 4) false)) ∧
    (Inc (emptyScope.set "n" (.vInt 3) false) [.vStr "n", .vInt 10] =
      .ok (.vStr "", (emptyScope.set "n" (.vInt 3) false).set "n" (.vInt 13) false)) ∧
    Inc emptyScope [.vStr "n"] = .ok (.vStr "", emptyScope) ∧
    (Inc (emptyScope.set "n" (.vInt 9223372036854775807) false) [.vStr "n", .vInt 1] =
      .ok (.vStr "",
        (emptyScope.set "n" (.vInt 9223372036854775807) false).set "n"
          (.vInt (-9223372036854775808)) false)) :=
  ⟨(c6_inc_update (emptyScope.set "n" (.vInt 3) false) "n").2.1 3 false rfl,
    (c6_inc_update (emptyScope.set "n" (.vInt 3) false) "n").1 3 false 10 [] rfl,
    ((c6_inc_update emptyScope "n").2.2.1 rfl).2,
    (c6_inc_update (emptyScope.set "n" (.vInt 9223372036854775807) false) "n").1
      9223372036854775807 false 1 [] rfl⟩

/-- C7: `bag`'s filename resolution — an absolute path is used as-is; a
relative path is joined to `_bagdir` when that is set, and otherwise to
the directory of `_prodfile`. -/
theorem c7_bag_path_resolution (sc : Scope) (f : String) :
    (isAbs f = true → bagResolve sc f = f) ∧
    (isAbs f = false → ∀ d, sc.bagdir = some d →
        bagResolve sc f = joinPath d f) ∧
    (isAbs f = false → sc.bagdir = none → ∀ p, sc.prodfile = some p →
        bagResolve sc f = joinPath (dirPath p) f) := by
  refine ⟨?_, ?_, ?_⟩
  · intro h
    simp [bagResolve, h]
  · intro h d hd
    simp [bagResolve, h, Scope.getString, hd]
  · intro h hd p hp
    simp [bagResolve, h, Scope.getString, hd, hp]

/-- Witness for C7 at three concrete scopes: an absolute path, a relative
path with `_bagdir` set, and a relative path with only `_prodfile` set. -/
theorem c7_bag_path_resolution_witness :
    bagResolve emptyScope "/abs/b.csv" = "/abs/b.csv" ∧
    bagResolve { emptyScope with bagdir := some "/bags" } "b.csv" =
      joinPath "/bags" "b.csv" ∧
    bagResolve { emptyScope with prodfile := some "/p/g.prod" } "b.csv" =
      joinPath (dirPath "/p/g.prod") "b.csv" :=
  ⟨(c7_bag_path_resolution emptyScope "/abs/b.csv").1 rfl,
    (c7_bag_path_resolution { emptyScope with bagdir := some "/bags" } "b.csv").2.1
      rfl "/bags" rfl,
    (c7_bag_path_resolution { emptyScope with prodfile := some "/p/g.prod" } "b.csv").2.2
      rfl rfl "/p/g.prod" rfl⟩

/-- The random index drawn by `Bag`/`Choice` stays below the bound. -/
theorem intn_lt (sc : Scope) (n : Nat) (hn : 0 < n) : (sc.intn n).1 < n := by
  have hne : n ≠ 0 := Nat.pos_iff_ne_zero.mp hn
  simp only [Scope.intn, hne, if_false]
  exact Nat.mod_lt _ hn

/-- C8: every value `bag` returns for a file is either the first field of
one of the file's CSV records or the empty string, and a file with no
records yields the empty string. -/
theorem c8_bag_first_field (sc : Scope) (f : String) (records : List (List String))
    (h : sc.fs.lookup (bagResolve sc f) = some records) :
    (∃ s sc', Bag sc [.vStr f] = .ok (.vStr s, sc') ∧
      (s = "" ∨ ∃ rec ∈ records, rec.head? = some s)) ∧
    (records = [] → Bag sc [.vStr f] = .ok (.vStr "", sc)) := by
  constructor
  · by_cases hlen : 0 < records.length
    · have hk : (sc.intn records.length).1 < records.length := intn_lt _ _ hlen
      have hmem : records.getD (sc.intn records.length).1 [] ∈ records := by
        rw [List.getD_eq_getElem records [] hk]
        exact List.getElem_mem hk
      by_cases hrl : 0 < (records.getD (sc.intn records.length).1 []).length
      · refine ⟨(records.getD (sc.intn records.length).1 []).headD "",
          (sc.intn records.length).2, ?_,
          Or.inr ⟨records.getD (sc.intn records.length).1 [], hmem, ?_⟩⟩
        · simp only [Bag, h]
          rw [if_pos hlen, if_pos hrl]
        · match hcons : records.getD (sc.intn records.length).1 [] with
          | [] => rw [hcons] at hrl; simp at hrl
          | a :: tl => rfl
      · refine ⟨"", (sc.intn records.length).2, ?_, Or.inl rfl⟩
        simp only [Bag, h]
        rw [if_pos hlen, if_neg hrl]
    · have hrec : records = [] := List.eq_nil_of_length_eq_zero (Nat.eq_zero_of_not_pos hlen)
      subst hrec
      refine ⟨"", sc, ?_, Or.inl rfl⟩
      simp [Bag, h]
  · intro hrec
    subst hrec
    simp [Bag, h]

/-- Witness for C8 over a two-record file: the returned value is drawn
from the first column; and over an empty file: the empty string. -/
theorem c8_bag_first_field_witness :
    (∃ s sc',
      Bag { emptyScope with fs := [("b.csv", [["x", "y"], ["z"]])] } [.vStr "b.csv"] =
        .ok (.vStr s, sc') ∧
      (s = "" ∨ ∃ rec ∈ [["x", "y"], ["z"]], rec.head? = some s)) ∧
    Bag { emptyScope with fs := [("empty.csv", [])] } [.vStr "empty.csv"] =
      .ok (.vStr "", { emptyScope with fs := [("empty.csv", [])] }) :=
  ⟨(c8_bag_first_field { emptyScope with fs := [("b.csv", [["x", "y"], ["z"]])] }
      "b.csv" [["x", "y"], ["z"]] rfl).1,
    (c8_bag_first_field { emptyScope with fs := [("empty.csv", [])] }
      "empty.csv" [] rfl).2 rfl⟩

/-- A `##literaltok` form returning a fixed float, as `litNode` builds for
a FLOAT token. -/
def litFloat (q : Rat) : Form := .mk "##literaltok" 0 0 (.const (.vFloat q))

/-- The parse-time form `(weigh 0.5 0.5)`. -/
def wfC2 : Form := formNode "weigh" [litFloat (1 / 2), litFloat (1 / 2)]

/-- Counterexample to C2 as stated: a rule alternative consisting of the
single token `(weigh 0.5 0.5)` — its first token is a `weigh`
form-application, yet `ruleNode` (whose weigh check requires
`len(ns) > 1`) neither evaluates nor strips it and installs no weight: the
compiled rule keeps the weigh token in its body and has weight 0, not
0.5. -/
theorem c2_counterexample :
    ruleNode 2 [wfC2] = .ok (Form.mk "##rule" 0 0 (.rule [wfC2])) ∧
    (Form.mk "##rule" 0 0 (Body.rule [wfC2])).weight ≠ 1 / 2 :=
  ⟨rfl, by norm_num [Form.weight]⟩

/-- C2 (amended): for a rule alternative with more than one token whose
first token is a form-application named `weigh`, the parser evaluates that
form at parse time against an empty scope, takes the first two elements of
the returned list as floats `[weight, restraint]`, installs them on the
rule form via `SetWeight`, and strips the weigh token, so the compiled
rule consists of the remaining tokens only. -/
theorem c2_weigh_annotation (fuel : Nat) (n0 r0 : Form) (rest : List Form)
    (w r : Rat) (more : List Value) (sc : Scope)
    (hname : n0.name = "weigh")
    (heval : evalForm fuel n0 emptyScope = .ok (.vList (.vFloat w :: .vFloat r :: more), sc)) :
    ruleNode fuel (n0 :: r0 :: rest) = .ok ((mkRuleForm (r0 :: rest)).setWeight w r) := by
  simp [ruleNode, hname, heval]

/-- Witness for C2 (amended): the alternative `(weigh 0.5 0.5) "x"` parses
to a rule of body `"x"` alone with weight and restraint 0.5. -/
theorem c2_weigh_annotation_witness :
    ruleNode 2 [wfC2, stringNode "x"] =
      .ok ((mkRuleForm [stringNode "x"]).setWeight (1 / 2) (1 / 2)) :=
  c2_weigh_annotation 2 wfC2 (stringNode "x") [] (1 / 2) (1 / 2) [] emptyScope rfl rfl

/-- C3: (A) a rule alternative not starting with a `weigh` form compiles
with weight (and restraint) 0; (B) for a nonterminal with `R ≥ 1` such
alternatives `rulesNode` assigns every rule the default weight exactly
`1/R`, and the weights sum to 1; (C) a default-weight assignment does not
override a (nonzero) weight installed by a `weigh` annotation. -/
theorem c3_default_weights :
    (∀ (fuel : Nat) (ts : List Form),
      (∀ n0 r0 rest, ts = n0 :: r0 :: rest → n0.name ≠ "weigh") →
      ∃ f, ruleNode fuel ts = .ok f ∧ f.weight = 0 ∧ f.restrain = 0) ∧
    (∀ ns : List Form, ns ≠ [] → (∀ f ∈ ns, f.weight = 0) →
      (rulesNode ns).map Form.weight =
        List.replicate ns.length (1 / (ns.length : Rat)) ∧
      ((rulesNode ns).map Form.weight).sum = 1) ∧
    (∀ (f : Form) (w r d : Rat), w ≠ 0 →
      ((f.setWeight w r).setDefaultWeight d).weight = w) := by
  refine ⟨?_, ?_, ?_⟩
  · intro fuel ts hw
    match ts with
    | [] => exact ⟨(mkRuleForm []).setWeight 0 0, rfl, rfl, rfl⟩
    | [t] => exact ⟨(mkRuleForm [t]).setWeight 0 0, rfl, rfl, rfl⟩
    | n0 :: r0 :: rest =>
      have : n0.name ≠ "weigh" := hw n0 r0 rest rfl
      refine ⟨(mkRuleForm (n0 :: r0 :: rest)).setWeight 0 0, ?_, rfl, rfl⟩
      simp [ruleNode, this]
  · intro ns hne h0
    have hmap : (rulesNode ns).map Form.weight =
        List.replicate ns.length (1 / (ns.length : Rat)) := by
      rw [rulesNode]
      rw [List.map_map]
      rw [List.eq_replicate_iff]
      refine ⟨by simp, ?_⟩
      intro b hb
      obtain ⟨f, hf, rfl⟩ := List.mem_map.mp hb
      have h0f := h0 f hf
      cases f with
      | mk n w r bd =>
        have hw : w = 0 := h0f
        subst hw
        simp [Function.comp, Form.setDefaultWeight, Form.weight, Form.name,
          Form.restrain, Form.body]
    refine ⟨hmap, ?_⟩
    rw [hmap, List.sum_replicate, nsmul_eq_mul]
    have : (ns.length : Rat) ≠ 0 := by
      exact_mod_cast Nat.cast_ne_zero.mpr (fun h => hne (List.length_eq_zero.mp h))
    field_simp
  · intro f w r d hw
    cases f with
    | mk n w0 r0 b =>
      simp [Form.setWeight, Form.setDefaultWeight, Form.weight, hw]

/-- Witness for C3: a weigh-less alternative compiles to weight 0; two
weight-0 alternatives each get default weight 1/2, summing to 1; and a
0.9-weighted rule keeps 0.9 under a default assignment of 1/3. -/
theorem c3_default_weights_witness :
    (∃ f, ruleNode 0 [stringNode "x"] = .ok f ∧ f.weight = 0 ∧ f.restrain = 0) ∧
    ((rulesNode [mkRuleForm [], mkRuleForm []]).map Form.weight =
        List.replicate ([mkRuleForm [], mkRuleForm []].length)
          (1 / (([mkRuleForm [], mkRuleForm []].length : Nat) : Rat)) ∧
      ((rulesNode [mkRuleForm [], mkRuleForm []]).map Form.weight).sum = 1) ∧
    (((mkRuleForm []).setWeight (9 / 10) 0 |>.setDefaultWeight (1 / 3)).weight = 9 / 10) :=
  ⟨c3_default_weights.1 0 [stringNode "x"] (by intro a b c h; simp at h),
    c3_default_weights.2.1 [mkRuleForm [], mkRuleForm []] (by simp)
      (by intro f hf
          simp only [List.mem_cons, List.not_mem_nil, or_false] at hf
          rcases hf with h | h <;> subst h <;> rfl),
    c3_default_weights.2.2 (mkRuleForm []) (9 / 10) 0 (1 / 3) (by norm_num)⟩

/-- C4: a form-application `(name arg*)` dispatches on the builtin
registry.  A registered builtin name wins: the compiled form carries the
tag `name`, evaluates the argument sub-forms in order and invokes the
builtin on the resulting values (regardless of any same-named
nonterminal).  Otherwise the compiled form carries the tag `#name` and,
when evaluated, runs the nonterminal `name` through `EvalForms`, caches
the result under `name` in local scope and returns it — failing fatally
when no such nonterminal exists. -/
theorem c4_form_application (fuel : Nat) (name : String) (args : List Form) (sc : Scope) :
    (∀ bf, builtins.lookup name = some bf →
      (formNode name args).name = name ∧
      evalForm (fuel + 1) (formNode name args) sc =
        match evalArgsWith (evalForm fuel) args sc with
        | .error e => .error e
        | .ok (vs, sc') => bf sc' vs) ∧
    (builtins.lookup name = none →
      (formNode name args).name = "#" ++ name ∧
      (∀ forms, sc.getNonTerminal name = some forms →
        evalForm (fuel + 1) (formNode name args) sc =
          match EvalForms (evalForm fuel) name sc forms with
          | .error e => .error e
          | .ok (v, sc') => .ok (v, sc'.set name v false)) ∧
      (sc.getNonTerminal name = none →
        evalForm (fuel + 1) (formNode name args) sc =
          .error ("unknown form name " ++ name))) := by
  constructor
  · intro bf hlk
    have hform : formNode name args = .mk name 0 0 (.builtinApp name args) := by
      simp [formNode, hlk]
    refine ⟨by rw [hform]; rfl, ?_⟩
    rw [hform]
    simp only [evalForm, evalB, evalStep, Form.body, hlk]
    rfl
  · intro hlk
    have hform : formNode name args = .mk ("#" ++ name) 0 0 (.ntApp name) := by
      simp [formNode, hlk]
    refine ⟨by rw [hform]; rfl, ?_, ?_⟩
    · intro forms hnt
      rw [hform]
      simp only [evalForm, evalB, evalStep, Form.body, ntEval, hnt]
      rfl
    · intro hnt
      rw [hform]
      simp only [evalForm, evalB, evalStep, Form.body, ntEval, hnt]

/-- Witness for C4: `(let)` invokes the `let` builtin (returning the empty
string); `(foo)` with no nonterminal `foo` fails fatally, under the tag
`#foo`. -/
theorem c4_form_application_witness :
    ((formNode "let" []).name = "let" ∧
      evalForm 1 (formNode "let" []) emptyScope = .ok (.vStr "", emptyScope)) ∧
    ((formNode "foo" []).name = "#" ++ "foo" ∧
      evalForm 1 (formNode "foo" []) emptyScope =
        .error ("unknown form name " ++ "foo")) := by
  have h1 := (c4_form_application 0 "let" [] emptyScope).1 Let rfl
  have h2 := (c4_form_application 0 "foo" [] emptyScope).2 rfl
  exact ⟨⟨h1.1, h1.2.trans rfl⟩, ⟨h2.1, h2.2.2 rfl⟩⟩

/-- Written from the spec's words for C1 (§4.2): evaluate each sub-form in
order, binding result `i` to local name `#i`; report `none` as soon as a
sub-form returns nil, and otherwise collect the ordered list of
results. -/
def specRuleResults (ev : Form → Scope → Res) :
    List Form → Nat → Scope → Except String (Option (List Value) × Scope)
  | [], _, sc => .ok (some [], sc)
  | f :: fs, i, sc =>
    match ev f sc with
    | .error e => .error e
    | .ok (v, sc') =>
      if v.isNil then .ok (none, sc')
      else
        match specRuleResults ev fs (i + 1) (sc'.set ("#" ++ toString i) v false) with
        | .error e => .error e
        | .ok (ovs, sc'') => .ok (ovs.map (v :: ·), sc'')

/-- The concatenation of the default-formatted renderings
`fmt(result_0) ++ … ++ fmt(result_(n-1))`. -/
def concatFmt : List Value → String
  | [] => ""
  | v :: vs => fmtValue v ++ concatFmt vs

/-- Written from the spec's words for C1 (§4.2): a rule returns nil when
some sub-form did; otherwise it returns the concatenation of the
formatted results. -/
def specRuleEval (ev : Form → Scope → Res) (rats : List Form) (sc : Scope) : Res :=
  match specRuleResults ev rats 0 sc with
  | .error e => .error e
  | .ok (none, sc') => .ok (.vNil, sc')
  | .ok (some vs, sc') => .ok (.vStr (concatFmt vs), sc')

/-- The accumulator form of the rule loop agrees with the spec-worded
result collection. -/
theorem ruleAux_spec (ev : Form → Scope → Res) (rats : List Form) :
    ∀ (i : Nat) (str : String) (sc : Scope),
    ruleAuxWith ev rats i str sc =
      match specRuleResults ev rats i sc with
      | .error e => .error e
      | .ok (none, sc') => .ok (.vNil, sc')
      | .ok (some vs, sc') => .ok (.vStr (str ++ concatFmt vs), sc') := by
  induction rats with
  | nil =>
    intro i str sc
    simp [ruleAuxWith, specRuleResults, concatFmt]
  | cons f fs ih =>
    intro i str sc
    rw [ruleAuxWith, specRuleResults]
    cases hev : ev f sc with
    | error e => rfl
    | ok p =>
      obtain ⟨v, sc'⟩ := p
      by_cases hnil : v.isNil = true
      · simp [hnil]
      · have hb : v.isNil = false := by simpa using hnil
        simp only [hb, Bool.false_eq_true, if_false, ih]
        cases hres : specRuleResults ev fs (i + 1) (sc'.set ("#" ++ toString i) v false) with
        | error e => rfl
        | ok q =>
          obtain ⟨ovs, sc''⟩ := q
          cases ovs with
          | none => rfl
          | some vs => simp [concatFmt, String.append_assoc]

/-- C1: evaluating a compiled rule form (any form whose body is
`Body.rule rats`, as every `ruleNode` output is) coincides with the
spec-worded evaluation: sub-forms run left to right, each non-nil result
`i` is bound to `#i` and its default-formatted rendering appended, the
concatenation is returned, and a nil sub-form result makes the rule
return nil. -/
theorem c1_rule_evaluation (fuel : Nat) (nm : String) (w r : Rat)
    (rats : List Form) (sc : Scope) :
    evalForm (fuel + 1) (Form.mk nm w r (.rule rats)) sc =
      specRuleEval (evalForm fuel) rats sc := by
  have h0 : evalForm (fuel + 1) (Form.mk nm w r (.rule rats)) sc =
      ruleAuxWith (evalForm fuel) rats 0 "" sc := rfl
  rw [h0, ruleAux_spec (evalForm fuel) rats 0 "" sc, specRuleEval]
  cases hres : specRuleResults (evalForm fuel) rats 0 sc with
  | error e => rfl
  | ok q =>
    obtain ⟨ovs, sc'⟩ := q
    cases ovs with
    | none => rfl
    | some vs => simp

/-- Installing the positional bindings `#i, #(i+1), …` for a list of rule
sub-form results, as the rule loop does. -/
def bindArgs (sc : Scope) : List Value → Nat → Scope
  | [], _ => sc
  | v :: vs, i => bindArgs (sc.set ("#" ++ toString i) v false) vs (i + 1)

/-- A freshly `Set` local binding is found by `Get`. -/
theorem get_set_self (sc : Scope) (n : String) (v : Value) :
    (sc.set n v false).get n = some (v, false) := by
  simp [Scope.set, Scope.get, List.lookup]

/-- `Set` never removes a resolvable name. -/
theorem get_isSome_set (sc : Scope) (k a : String) (v : Value) (b : Bool)
    (h : (sc.get k).isSome) : ((sc.set a v b).get k).isSome := by
  by_cases hka : k = a
  · subst hka
    cases b
    · simp [Scope.set, Scope.get, List.lookup]
    · cases hl : sc.locals.lookup k
      · simp [Scope.get, hl] at h
        simp [Scope.set, Scope.get, List.lookup, hl, h]
      · simp [Scope.set, Scope.get, List.lookup, hl]
  · have hbeq : (k == a) = false := beq_eq_false_iff_ne.mpr hka
    cases b
    · cases hl : sc.locals.lookup k
      · simp [Scope.get, hl] at h
        simp [Scope.set, Scope.get, List.lookup, hbeq, hl, h]
      · simp [Scope.set, Scope.get, List.lookup, hbeq, hl]
    · cases hl : sc.locals.lookup k
      · simp [Scope.get, hl] at h
        simp [Scope.set, Scope.get, List.lookup, hbeq, hl, h]
      · simp [Scope.set, Scope.get, List.lookup, hbeq, hl]

/-- `bindArgs` never removes a resolvable name. -/
theorem bindArgs_isSome_preserved :
    ∀ (vs : List Value) (i : Nat) (sc : Scope) (k : String),
    (sc.get k).isSome → ((bindArgs sc vs i).get k).isSome := by
  intro vs
  induction vs with
  | nil => intro i sc k h; exact h
  | cons v vs ih =>
    intro i sc k h
    exact ih (i + 1) _ k (get_isSome_set sc k _ v false h)

/-- After `bindArgs`, every positional name `#(i+j)` with `j` below the
number of bound values resolves. -/
theorem bindArgs_get_isSome :
    ∀ (vs : List Value) (i : Nat) (sc : Scope) (j : Nat), j < vs.length →
    ((bindArgs sc vs i).get ("#" ++ toString (i + j))).isSome := by
  intro vs
  induction vs with
  | nil => intro i sc j hj; simp at hj
  | cons v vs ih =>
    intro i sc j hj
    cases j with
    | zero =>
      have : ((sc.set ("#" ++ toString i) v false).get ("#" ++ toString i)).isSome := by
        rw [get_set_self]; rfl
      simpa using bindArgs_isSome_preserved vs (i + 1) _ _ this
    | succ j =>
      have harith : i + (j + 1) = (i + 1) + j := by omega
      rw [bindArgs, harith]
      exact ih (i + 1) _ j (by simpa using hj)

/-- The rule loop runs a prefix of scope-pure, non-nil sub-forms by
binding their results in order. -/
theorem ruleAux_pure_prefix (ev : Form → Scope → Res) :
    ∀ (front : List Form) (vs : List Value), front.length = vs.length →
    (∀ j (_ : j < vs.length) (s : Scope),
      ev (front.getD j default) s = .ok (vs.getD j .vNil, s)) →
    (∀ j (_ : j < vs.length), (vs.getD j .vNil).isNil = false) →
    ∀ (tail : List Form) (i : Nat) (str : String) (sc : Scope),
    ruleAuxWith ev (front ++ tail) i str sc =
      ruleAuxWith ev tail (i + front.length) (str ++ concatFmt vs) (bindArgs sc vs i) := by
  intro front
  induction front with
  | nil =>
    intro vs hlen hok hnn tail i str sc
    have hvs : vs = [] := List.eq_nil_of_length_eq_zero hlen.symm
    subst hvs
    simp [bindArgs, concatFmt]
  | cons g front ih =>
    intro vs hlen hok hnn tail i str sc
    cases vs with
    | nil => simp at hlen
    | cons v vs =>
      have hlen' : front.length = vs.length := by simpa using hlen
      have hg : ev g sc = .ok (v, sc) := hok 0 (by simp) sc
      have hnnv : v.isNil = false := hnn 0 (by simp)
      rw [List.cons_append, ruleAuxWith, hg]
      simp only [hnnv, Bool.false_eq_true, if_false]
      rw [ih vs hlen'
        (fun j hj s => by simpa using hok (j + 1) (by simpa using hj) s)
        (fun j hj => by simpa using hnn (j + 1) (by simpa using hj))
        tail (i + 1) (str ++ fmtValue v) (sc.set ("#" ++ toString i) v false)]
      have harith : (i + 1) + front.length = i + (front.length + 1) := by omega
      rw [harith, String.append_assoc]
      rfl

/-- C10: when the sub-form at position `i` of a rule body returns nil
(after `i` scope-pure, non-nil sub-forms), the rule returns nil and the
final scope is exactly the input scope with the bindings `#0 … #(i-1)`
installed — the positional bindings of the earlier sub-forms remain
resolvable and are not rolled back by the cancellation, while `#i` itself
was never bound. -/
theorem c10_no_rollback (fuel : Nat) (front : List Form) (vs : List Value)
    (f : Form) (rest : List Form) (sc : Scope)
    (hlen : front.length = vs.length)
    (hok : ∀ j (_ : j < vs.length) (s : Scope),
      evalForm fuel (front.getD j default) s = .ok (vs.getD j .vNil, s))
    (hnn : ∀ j (_ : j < vs.length), (vs.getD j .vNil).isNil = false)
    (hf : ∀ s : Scope, evalForm fuel f s = .ok (.vNil, s)) :
    evalB (fuel + 1) (Body.rule (front ++ f :: rest)) sc =
      .ok (.vNil, bindArgs sc vs 0) ∧
    (∀ j, j < vs.length →
      ((bindArgs sc vs 0).get ("#" ++ toString j)).isSome) := by
  constructor
  · have h0 : evalB (fuel + 1) (Body.rule (front ++ f :: rest)) sc =
        ruleAuxWith (evalForm fuel) (front ++ f :: rest) 0 "" sc := rfl
    rw [h0, ruleAux_pure_prefix (evalForm fuel) front vs hlen hok hnn
      (f :: rest) 0 "" sc]
    rw [ruleAuxWith, hf (bindArgs sc vs 0)]
    rfl
  · intro j hj
    simpa using bindArgs_get_isSome vs 0 sc j hj

/-- Witness for C10: the rule `"a" <nil-form>` cancels but leaves `#0`
bound to `"a"` in the surviving scope. -/
theorem c10_no_rollback_witness :
    evalB 2 (Body.rule ([stringNode "a"] ++
        (Form.mk "##literaltok" 0 0 (.const .vNil)) :: [])) emptyScope =
      .ok (.vNil, bindArgs emptyScope [.vStr "a"] 0) ∧
    ((bindArgs emptyScope [.vStr "a"] 0).get ("#" ++ toString 0)).isSome := by
  have h := c10_no_rollback 1 [stringNode "a"] [.vStr "a"]
    (Form.mk "##literaltok" 0 0 (.const .vNil)) [] emptyScope rfl
    (by
      intro j hj s
      have hj1 : j < 1 := by simpa using hj
      match j, hj1 with
      | 0, _ => rfl
      | j + 1, h1 => exact absurd h1 (by omega))
    (by
      intro j hj
      have hj1 : j < 1 := by simpa using hj
      match j, hj1 with
      | 0, _ => rfl
      | j + 1, h1 => exact absurd h1 (by omega))
    (fun s => rfl)
  exact ⟨h.1, h.2 0 (by simp)⟩

end Monster
